import Mathlib

/-!
Verification of the multi-tenant migration runner in `fastmigrate_multi.py`.

The Python module is shallowly embedded: pure string processing (filename and
SQL-section parsing) becomes executable Lean functions on `List Char`, and the
stateful database layer (psycopg2 connections, transactions, the tracking
table) becomes explicit state passing over a `Conn` record holding a committed
and a pending `DbState`.  External effects are abstracted into an `Env` record:
which SQL bodies execute successfully, which connections open, the checksum
function, the environment variables read by the script, and the tenant
directory lookup.  Wall-clock execution times are abstracted to 0 ms.
-/

namespace FastMigrate

/-! ## Character-level model of the regular expressions in `MigrationFile`

`_parse_sql` uses `re.search` with the patterns
`--\s*=+\s*UP\s*=+\s*\n(.*?)(?=--\s*=+\s*DOWN\s*=+|$)` (DOTALL, IGNORECASE)
and `--\s*=+\s*DOWN\s*=+\s*\n(.*?)$`.  The functions below reproduce the
backtracking semantics of these two concrete patterns on ASCII text:
`\s` is modelled by the six ASCII whitespace characters, `$` (MULTILINE off)
matches at the end of the text or just before one final newline, and the
trailing `\s*\n` of a marker header ends after the last newline of the
maximal whitespace run, as the greedy `\s*` with backtracking does. -/

def pIsSpace (c : Char) : Bool :=
  c == ' ' || c == '\t' || c == '\n' || c == '\r' || c == Char.ofNat 11 || c == Char.ofNat 12

/-- Case-insensitive literal word match; `w` is stored in lowercase.
Returns the remaining input after the word. -/
def eatWord : List Char → List Char → Option (List Char)
  | [], s => some s
  | _ :: _, [] => none
  | w :: ws, c :: s => if c.toLower = w then eatWord ws s else none

/-- Consume `=+` (one or more equals signs, greedily). -/
def eatEqs : List Char → Option (List Char)
  | '=' :: rest => some (rest.dropWhile (fun c => c == '='))
  | _ => none

/-- Consume `\s*\n` with greedy backtracking: the match ends after the last
newline inside the maximal leading whitespace run, if that run has one. -/
def eatSpacesNlGo : List Char → Option (List Char) → Option (List Char)
  | [], acc => acc
  | c :: rest, acc =>
    if c == '\n' then eatSpacesNlGo rest (some rest)
    else if pIsSpace c then eatSpacesNlGo rest acc
    else acc

def dashDash : List Char := ['-', '-']
def upWord : List Char := ['u', 'p']
def downWord : List Char := ['d', 'o', 'w', 'n']

/-- Match the marker header `--\s*=+\s*WORD\s*=+\s*\n` at the start of the
input, returning the remainder after the final newline. -/
def eatHeader (word : List Char) (s : List Char) : Option (List Char) :=
  match eatWord dashDash s with
  | none => none
  | some s1 =>
    match eatEqs (s1.dropWhile pIsSpace) with
    | none => none
    | some s2 =>
      match eatWord word (s2.dropWhile pIsSpace) with
      | none => none
      | some s3 =>
        match eatEqs (s3.dropWhile pIsSpace) with
        | none => none
        | some s4 => eatSpacesNlGo s4 none

/-- Leftmost match of a marker header: the model of `re.search` for the two
patterns (whose body and lookahead always succeed once the header matches). -/
def searchHeader (word : List Char) : List Char → Option (List Char)
  | [] => none
  | c :: rest =>
    match eatHeader word (c :: rest) with
    | some r => some r
    | none => searchHeader word rest

/-- Zero-width test for the lookahead alternative `--\s*=+\s*DOWN\s*=+`. -/
def downMarkerAhead (s : List Char) : Bool :=
  (match eatWord dashDash s with
   | none => none
   | some s1 =>
     match eatEqs (s1.dropWhile pIsSpace) with
     | none => none
     | some s2 =>
       match eatWord downWord (s2.dropWhile pIsSpace) with
       | none => none
       | some s3 => eatEqs (s3.dropWhile pIsSpace)).isSome

/-- Does `$` (MULTILINE off) match at this position: at the very end, or just
before one final newline. -/
def dollarAt : List Char → Bool
  | [] => true
  | ['\n'] => true
  | _ => false

/-- Group 1 of the UP pattern: the lazy `(.*?)` runs from the header end to the
first position where the DOWN-marker lookahead or `$` matches. -/
def upBody : List Char → List Char
  | [] => []
  | c :: rest =>
    if downMarkerAhead (c :: rest) || dollarAt (c :: rest) then []
    else c :: upBody rest

/-- Group 1 of the DOWN pattern: the lazy `(.*?)$` stops at the first position
where `$` matches, i.e. it drops one final trailing newline if present. -/
def downBody (r : List Char) : List Char :=
  if r.getLast? == some '\n' then r.dropLast else r

/-- Python `str.strip()` on ASCII whitespace. -/
def pStrip (s : List Char) : List Char :=
  ((s.dropWhile pIsSpace).reverse.dropWhile pIsSpace).reverse

def strip (s : String) : String :=
  String.mk (pStrip s.toList)

/-- The `up_match` of `_parse_sql`: leftmost match of the UP marker header. -/
def up_match (content : String) : Option (List Char) :=
  searchHeader upWord content.toList

/-- The `down_match` of `_parse_sql`: leftmost match of the DOWN marker header. -/
def down_match (content : String) : Option (List Char) :=
  searchHeader downWord content.toList

/-- `MigrationFile._parse_sql`: split a migration file into its UP and DOWN
SQL bodies.  `up_sql` falls back to the whole (stripped) content when the UP
pattern does not match; `down_sql` falls back to the empty string when the
DOWN pattern does not match. -/
def parse_sql (content : String) : String × String :=
  let up : List Char :=
    match up_match content with
    | some rest => pStrip (upBody rest)
    | none => pStrip content.toList
  let down : List Char :=
    match down_match content with
    | some rest => pStrip (downBody rest)
    | none => []
  (String.mk up, String.mk down)

/-! ## Filename parsing (`_extract_version`, `_extract_name`, `_extract_scope`) -/

def digitsToNat (ds : List Char) : Nat :=
  ds.foldl (fun n c => 10 * n + (c.toNat - 48)) 0

/-- `MigrationFile._extract_version`: `re.match(r'^(\d+)_', name)`; `none`
models the `ValueError` raised on a filename without a leading version. -/
def extract_version (fname : String) : Option Nat :=
  let ds := fname.toList.takeWhile Char.isDigit
  match fname.toList.drop ds.length with
  | '_' :: _ => if ds.isEmpty then none else some (digitsToNat ds)
  | _ => none

/-- `Path.stem`: the filename without its last dot-suffix; a lone leading dot
does not start a suffix. -/
def stemChars (l : List Char) : List Char :=
  let afterDot := l.reverse.takeWhile (fun c => c != '.')
  if afterDot.length == l.length then l
  else
    let pre := l.take (l.length - afterDot.length - 1)
    if pre.isEmpty then l else pre

/-- Group 1 of `^\d+_(.+)\.sql$` applied to the text after the underscore:
a greedy newline-free nonempty body followed by `.sql`, with `$` allowing one
final trailing newline. -/
def nameBody (r : List Char) : Option (List Char) :=
  if ['.', 's', 'q', 'l'].isSuffixOf r then
    let b := r.take (r.length - 4)
    if b.isEmpty || b.contains '\n' then none else some b
  else if ['.', 's', 'q', 'l', '\n'].isSuffixOf r then
    let b := r.take (r.length - 5)
    if b.isEmpty || b.contains '\n' then none else some b
  else none

/-- `MigrationFile._extract_name`: `re.match(r'^\d+_(.+)\.sql$', name)`, with
`Path.stem` as the fallback when the pattern does not match. -/
def extract_name (fname : String) : String :=
  let l := fname.toList
  let ds := l.takeWhile Char.isDigit
  let matchRes : Option (List Char) :=
    if ds.isEmpty then none
    else
      match l.drop ds.length with
      | '_' :: r => nameBody r
      | _ => none
  match matchRes with
  | some b => String.mk b
  | none => String.mk (stemChars l)

/-- `MigrationFile._extract_scope`: the parent directory name when it is one
of the three recognized scopes, else `unknown`. -/
def extract_scope (dir : String) : String :=
  if dir == "host" || dir == "tenant" || dir == "both" then dir else "unknown"

/-! ## Migration records and discovery -/

structure Migration where
  version : Nat
  name : String
  scope : String
  up_sql : String
  down_sql : String
deriving DecidableEq

/-- One on-disk file of the migrations tree: parent directory name, basename,
and text content. -/
structure MigFile where
  dir : String
  fname : String
  content : String
deriving DecidableEq

/-- The `MigrationFile` constructor; `none` models the `ValueError` raised on
an invalid filename (discovery skips such files). -/
def mkMigrationFile (f : MigFile) : Option Migration :=
  match extract_version f.fname with
  | none => none
  | some v =>
    let sections := parse_sql f.content
    some { version := v, name := extract_name f.fname, scope := extract_scope f.dir,
           up_sql := sections.1, down_sql := sections.2 }

/-- Stable insertion placing `a` after every leading `b` with `lt b a`. -/
def insertByLt {α : Type} (lt : α → α → Bool) (a : α) : List α → List α
  | [] => [a]
  | b :: bs => if lt b a then b :: insertByLt lt a bs else a :: b :: bs

/-- Stable insertion sort, the model of Python's stable `sorted`/`list.sort`. -/
def sortByLt {α : Type} (lt : α → α → Bool) : List α → List α
  | [] => []
  | a :: as => insertByLt lt a (sortByLt lt as)

/-- Does the filename end in `.sql`. -/
def hasSqlExt (fname : String) : Bool :=
  ['.', 's', 'q', 'l'].isSuffixOf fname.toList

/-- Does the filename start with a dot (glob skips hidden files). -/
def isHidden (fname : String) : Bool :=
  ['.'].isPrefixOf fname.toList

/-- Code-point lexicographic order, the order in which `sorted` ranks paths. -/
def lexLtChars : List Char → List Char → Bool
  | [], [] => false
  | [], _ :: _ => true
  | _ :: _, [] => false
  | a :: as, b :: bs =>
    if a.toNat < b.toNat then true
    else if b.toNat < a.toNat then false
    else lexLtChars as bs

/-- `scope_path.glob('*.sql')` sorted: the `.sql` files of one scope directory
(hidden files excluded), in code-point filename order. -/
def globSql (files : List MigFile) (d : String) : List MigFile :=
  sortByLt (fun a b => lexLtChars a.fname.toList b.fname.toList)
    (files.filter (fun f => f.dir == d && hasSqlExt f.fname && !isHidden f.fname))

/-- `MigrationRunner.discover_migrations` with no scope filter: scan the
`host`, `tenant`, `both` directories in that order, skip files that fail to
parse, and sort the result by version (stably). -/
def discover_migrations (files : List MigFile) : List Migration :=
  let ordered := globSql files "host" ++ globSql files "tenant" ++ globSql files "both"
  sortByLt (fun a b => decide (a.version < b.version)) (ordered.filterMap mkMigrationFile)

/-! ## Database model

A `DbState` is one database as the migration runner can observe it: whether
the tracking table `_migration_versions` exists, its rows, and the log of
migration SQL bodies executed against the database (the effect of arbitrary
SQL is abstracted to appending the body to this log).  A `Conn` is a psycopg2
connection: `committed` is the durable state, `pending` the state as seen
inside the current transaction; `commit` and `rollback` move between them. -/

inductive Direction where
  | up
  | down
deriving DecidableEq

/-- One row of `_migration_versions`.  `applied_at` is a database-side default
and is not modelled; `execution_time_ms` is abstracted to the value the model
computes (0, wall clocks not being modelled). -/
structure Row where
  version : Nat
  name : String
  scope : String
  direction : Direction
  applied_by : String
  execution_time_ms : Nat
  checksum : String
deriving DecidableEq

structure DbState where
  hasTable : Bool
  rows : List Row
  sqlLog : List String
deriving DecidableEq

structure Conn where
  committed : DbState
  pending : DbState
deriving DecidableEq

def rollbackConn (c : Conn) : Conn := { c with pending := c.committed }

def commitConn (c : Conn) : Conn := { c with committed := c.pending }

/-- The external world and runner configuration: which migration SQL bodies
execute successfully, which databases accept connections, whether the
tracking-table DDL and the version query succeed, the environment variables
(`USER`, `POSTGRES_DATABASE`), the checksum function (sha-256/16 abstracted),
the tenant directory lookup result, the dry-run flag, and the contents of the
migrations directory. -/
structure Env where
  sqlOk : String → Bool
  connectOk : String → Bool
  ensureOk : Bool
  selectOk : Bool
  user : String
  hostDb : String
  sha16 : String → String
  tenantDbs : List (String × String)
  dryRun : Bool
  migrationsFs : List MigFile

/-- `MigrationRunner._ensure_migration_table`: create the tracking table if
absent and commit immediately; `error` models a raised database exception. -/
def ensure_migration_table (env : Env) (c : Conn) : Except String Conn :=
  if env.ensureOk then
    Except.ok (commitConn { c with pending := { c.pending with hasTable := true } })
  else Except.error "create table failed"

/-- The semantics of `SELECT MAX(version) FROM _migration_versions WHERE
direction = 'up'`, with SQL `NULL` (no matching row) mapped to 0 as the Python
code does. -/
def currentFromRows : List Row → Nat
  | [] => 0
  | r :: rs =>
    if r.direction = Direction.up then Nat.max r.version (currentFromRows rs)
    else currentFromRows rs

/-- `MigrationRunner.get_current_version`: ensure the table, run the version
query, and swallow any error into 0. -/
def get_current_version (env : Env) (c : Conn) : Conn × Nat :=
  match ensure_migration_table env c with
  | Except.error _ => (c, 0)
  | Except.ok c1 =>
    if env.selectOk then (c1, currentFromRows c1.pending.rows)
    else (c1, 0)

def migSql (m : Migration) (dir : Direction) : String :=
  match dir with
  | Direction.up => m.up_sql
  | Direction.down => m.down_sql

/-- `MigrationFile.get_checksum`: sha-256 of the directed SQL body, first 16
hex characters; the hash itself is the environment's `sha16`. -/
def get_checksum (env : Env) (m : Migration) (dir : Direction) : String :=
  env.sha16 (migSql m dir)

/-- The row inserted into `_migration_versions` by `apply_migration`. -/
def mkRow (env : Env) (m : Migration) (dir : Direction) : Row :=
  { version := m.version, name := m.name, scope := m.scope, direction := dir,
    applied_by := env.user, execution_time_ms := 0,
    checksum := get_checksum env m dir }

/-- Violation of the `PRIMARY KEY (version, direction)` of the tracking table. -/
def pkConflict (rows : List Row) (v : Nat) (d : Direction) : Bool :=
  rows.any (fun r => decide (r.version = v ∧ r.direction = d))

inductive MigError where
  | noSection (dir : Direction) (version : Nat)
  | sqlFailed (sql : String)
  | insertConflict (version : Nat) (dir : Direction)
deriving DecidableEq

/-- `MigrationRunner.apply_migration`: raise `ValueError` when the directed
SQL body is empty (before any transaction work); otherwise execute the body
and insert the tracking row inside one transaction, committing on success and
rolling back on any failure before re-raising. -/
def apply_migration (env : Env) (c : Conn) (m : Migration) (dir : Direction) :
    Conn × Except MigError Nat :=
  let sql := migSql m dir
  if sql = "" then
    (c, Except.error (MigError.noSection dir m.version))
  else if env.sqlOk sql then
    let c1 : Conn := { c with pending := { c.pending with sqlLog := sql :: c.pending.sqlLog } }
    if pkConflict c1.pending.rows m.version dir then
      (rollbackConn c1, Except.error (MigError.insertConflict m.version dir))
    else
      let c2 : Conn := { c1 with pending := { c1.pending with rows := mkRow env m dir :: c1.pending.rows } }
      (commitConn c2, Except.ok 0)
  else
    (rollbackConn c, Except.error (MigError.sqlFailed sql))

/-! ## Forward migration (`migrate_database`, `migrate_all`) -/

/-- Does `needle` occur as a contiguous run inside `hay`. -/
def containsSub (needle : List Char) : List Char → Bool
  | [] => needle.isEmpty
  | c :: rest => needle.isPrefixOf (c :: rest) || containsSub needle rest

/-- The scope-compatibility test of the loop in `migrate_database`: skip a
host-scoped migration when the database name contains `tenant`
(case-insensitively), and a tenant-scoped one when the target is the host
database named by `POSTGRES_DATABASE`. -/
def scope_skip (env : Env) (db_name : String) (m : Migration) : Bool :=
  (m.scope == "host" && containsSub "tenant".toList (db_name.toList.map Char.toLower))
  || (m.scope == "tenant" && db_name == env.hostDb)

/-- The pending set of `migrate_database`: discovered migrations above the
current version, further capped to `version <= target_version` when a target
is supplied — the Python code guards the cap with the truthiness test
`if target_version:`, so the cap is applied only for a nonzero target. -/
def pending_migrations (env : Env) (current : Nat) (tv : Option Int) : List Migration :=
  let p := (discover_migrations env.migrationsFs).filter (fun m => decide (current < m.version))
  match tv with
  | some t => if t ≠ 0 then p.filter (fun m => decide ((m.version : Int) ≤ t)) else p
  | none => p

/-- The observable outcome of one `migrate_database` call: the distinct
print/return paths of the Python code. -/
inductive MigReport where
  | dbError
  | upToDate (current : Nat)
  | failed (version : Nat) (e : MigError)
  | done
deriving DecidableEq

/-- The `for migration in pending` loop of `migrate_database`: skip on scope
mismatch, print only in dry-run mode, otherwise apply; the first failure
returns immediately, abandoning the rest of the list. -/
def runPendingUp (env : Env) (db_name : String) (c : Conn) :
    List Migration → Conn × MigReport
  | [] => (c, MigReport.done)
  | m :: ms =>
    if scope_skip env db_name m then runPendingUp env db_name c ms
    else if env.dryRun then runPendingUp env db_name c ms
    else
      match apply_migration env c m Direction.up with
      | (c1, Except.ok _) => runPendingUp env db_name c1 ms
      | (c1, Except.error e) => (c1, MigReport.failed m.version e)

/-- `MigrationRunner.migrate_database`: connect, ensure the tracking table,
compute the current version, select the pending migrations and run them;
any connection/setup failure is reported and leaves the database unchanged. -/
def migrate_database (env : Env) (db : DbState) (db_name : String)
    (tv : Option Int) : DbState × MigReport :=
  if env.connectOk db_name then
    match ensure_migration_table env { committed := db, pending := db } with
    | Except.error _ => (db, MigReport.dbError)
    | Except.ok c1 =>
      let vres := get_current_version env c1
      let pending := pending_migrations env vres.2 tv
      if pending.isEmpty then (vres.1.committed, MigReport.upToDate vres.2)
      else
        let res := runPendingUp env db_name vres.1 pending
        (res.1.committed, res.2)
  else (db, MigReport.dbError)

/-- All databases, addressed by name. -/
def World : Type := String → DbState

def updateWorld (w : World) (name : String) (d : DbState) : World :=
  fun n => if n = name then d else w n

def migrate_step (env : Env) (tv : Option Int) (w : World) (n : String) : World :=
  updateWorld w n (migrate_database env (w n) n tv).1

/-- `MigrationRunner.migrate_all`: the host database first, then every tenant
database in enumeration order, each migrated unconditionally (return values
are ignored). -/
def migrate_all (env : Env) (tv : Option Int) (w : World) : World :=
  (env.tenantDbs.map Prod.snd).foldl (migrate_step env tv)
    (migrate_step env tv w env.hostDb)

/-! ## Rollback (`rollback_database`, `rollback_all`) -/

inductive RollReport where
  | dbError
  | nothingToRollback
  | alreadyAtTarget
  | failed (version : Nat) (e : MigError)
  | done
deriving DecidableEq

/-- The target version of `rollback_database`: `max(0, current - steps)` when
none is supplied (the supplied case is checked with `is None`, so a supplied
0 is honoured). -/
def rollback_target (current : Nat) (steps : Int) (tv : Option Int) : Int :=
  match tv with
  | none => max 0 ((current : Int) - steps)
  | some t => t

/-- The `to_rollback` list of `rollback_database`: discovered migrations with
`target < version <= current`, reversed into descending order.  No scope test
appears here or in the rollback loop. -/
def rollback_selection (env : Env) (current : Nat) (target : Int) : List Migration :=
  ((discover_migrations env.migrationsFs).filter
    (fun m => decide (target < (m.version : Int)) && decide (m.version ≤ current))).reverse

/-- The `for migration in to_rollback` loop: print only in dry-run mode,
otherwise apply the DOWN direction; the first failure returns immediately. -/
def runPendingDown (env : Env) (c : Conn) :
    List Migration → Conn × RollReport
  | [] => (c, RollReport.done)
  | m :: ms =>
    if env.dryRun then runPendingDown env c ms
    else
      match apply_migration env c m Direction.down with
      | (c1, Except.ok _) => runPendingDown env c1 ms
      | (c1, Except.error e) => (c1, RollReport.failed m.version e)

/-- `MigrationRunner.rollback_database`: connect, ensure the table, read the
current version; nothing to do at version 0 or when the target is not below
the current version; otherwise roll the selection back in descending order. -/
def rollback_database (env : Env) (db : DbState) (db_name : String)
    (steps : Int) (tv : Option Int) : DbState × RollReport :=
  if env.connectOk db_name then
    match ensure_migration_table env { committed := db, pending := db } with
    | Except.error _ => (db, RollReport.dbError)
    | Except.ok c1 =>
      let vres := get_current_version env c1
      if vres.2 = 0 then (vres.1.committed, RollReport.nothingToRollback)
      else
        let target := rollback_target vres.2 steps tv
        if (vres.2 : Int) ≤ target then (vres.1.committed, RollReport.alreadyAtTarget)
        else
          let res := runPendingDown env vres.1 (rollback_selection env vres.2 target)
          (res.1.committed, res.2)
  else (db, RollReport.dbError)

def rollback_step (env : Env) (steps : Int) (tv : Option Int) (w : World) (n : String) : World :=
  updateWorld w n (rollback_database env (w n) n steps tv).1

/-- `MigrationRunner.rollback_all`: host database first, then every tenant in
enumeration order, return values ignored. -/
def rollback_all (env : Env) (steps : Int) (tv : Option Int) (w : World) : World :=
  (env.tenantDbs.map Prod.snd).foldl (rollback_step env steps tv)
    (rollback_step env steps tv w env.hostDb)

/-- Occurrences of a database name in a list (used to state that a name is
enumerated exactly once). -/
def countName (d : String) : List String → Nat
  | [] => 0
  | n :: ns => (if n = d then 1 else 0) + countName d ns

/-! ## Concrete scenarios used by the counterexamples and witnesses -/

/-- A migration file with only an UP section. -/
def upOnlyContent : String := "-- === UP ===\nCREATE TABLE t1 (id INTEGER);\n"

/-- A migration file with UP and DOWN sections. -/
def upDownContent : String := "-- === UP ===\nALTER TABLE t1 ADD c TEXT;\n-- === DOWN ===\nALTER TABLE t1 DROP c;\n"

/-- The scenario of the spec: `host/001_init.sql` (UP only) and
`tenant/002_add_col.sql` (UP and DOWN), host database `saas`, one tenant
database `tenant_x`, everything succeeding. -/
def envDemo : Env :=
  { sqlOk := fun _ => true, connectOk := fun _ => true, ensureOk := true, selectOk := true,
    user := "u", hostDb := "saas", sha16 := fun _ => "h",
    tenantDbs := [("t1", "tenant_x")], dryRun := false,
    migrationsFs := [⟨"host", "001_init.sql", upOnlyContent⟩,
                     ⟨"tenant", "002_add_col.sql", upDownContent⟩] }

/-- A single both-scoped migration `001_a.sql` whose whole content is the SQL
body `X` (no markers). -/
def envZeroTarget : Env :=
  { sqlOk := fun _ => true, connectOk := fun _ => true, ensureOk := true, selectOk := true,
    user := "u", hostDb := "h", sha16 := fun _ => "h", tenantDbs := [], dryRun := false,
    migrationsFs := [⟨"both", "001_a.sql", "X"⟩] }

/-- A single both-scoped migration numbered 000 with UP body `A` and DOWN
body `B`. -/
def envVersionZero : Env :=
  { sqlOk := fun _ => true, connectOk := fun _ => true, ensureOk := true, selectOk := true,
    user := "u", hostDb := "h", sha16 := fun _ => "h", tenantDbs := [], dryRun := false,
    migrationsFs := [⟨"both", "000_zero.sql", "-- === UP ===\nA\n-- === DOWN ===\nB\n"⟩] }

/-- Only a tenant-scoped migration on disk; the host database is `saas`. -/
def envRollTenant : Env :=
  { sqlOk := fun _ => true, connectOk := fun _ => true, ensureOk := true, selectOk := true,
    user := "u", hostDb := "saas", sha16 := fun _ => "h", tenantDbs := [], dryRun := false,
    migrationsFs := [⟨"tenant", "002_add_col.sql", upDownContent⟩] }

/-- An empty migrations directory with a working database. -/
def envUnit : Env :=
  { sqlOk := fun _ => true, connectOk := fun _ => true, ensureOk := true, selectOk := true,
    user := "u", hostDb := "h", sha16 := fun _ => "h", tenantDbs := [], dryRun := false,
    migrationsFs := [] }

/-- An environment in which every migration SQL body fails to execute, with
one tenant database `tdb`. -/
def envFail : Env :=
  { sqlOk := fun _ => false, connectOk := fun _ => true, ensureOk := true, selectOk := true,
    user := "u", hostDb := "h", sha16 := fun _ => "h", tenantDbs := [("t1", "tdb")],
    dryRun := false, migrationsFs := [] }

/-- A migration with an UP body and no DOWN body. -/
def mUnit : Migration := ⟨1, "a", "both", "X", ""⟩

/-- A migration with both bodies. -/
def mUnit2 : Migration := ⟨2, "b", "both", "Y", "Z"⟩

/-- A migration whose DOWN body is missing. -/
def mNoDown : Migration := ⟨3, "c", "both", "X", ""⟩

def dbFresh : DbState := ⟨false, [], []⟩

def connFresh : Conn := ⟨⟨false, [], []⟩, ⟨false, [], []⟩⟩

/-- A connection whose tracking table has up rows for versions 1 and 5 and a
down row for version 9. -/
def connRows : Conn :=
  ⟨⟨true, [⟨1, "a", "both", Direction.up, "u", 0, "h"⟩,
      ⟨5, "b", "both", Direction.up, "u", 0, "h"⟩,
      ⟨9, "c", "both", Direction.down, "u", 0, "h"⟩], []⟩,
   ⟨true, [⟨1, "a", "both", Direction.up, "u", 0, "h"⟩,
      ⟨5, "b", "both", Direction.up, "u", 0, "h"⟩,
      ⟨9, "c", "both", Direction.down, "u", 0, "h"⟩], []⟩⟩

/-- Did a `migrate_database` call take the `Already up to date` path. -/
def isUpToDate : MigReport → Bool
  | MigReport.upToDate _ => true
  | _ => false

/-! ## Helper lemmas -/

theorem mem_insertByLt {α : Type} (lt : α → α → Bool) (a x : α) (l : List α) :
    x ∈ insertByLt lt a l ↔ x = a ∨ x ∈ l := by
  induction l with
  | nil => simp [insertByLt]
  | cons b bs ih =>
    cases hlt : lt b a with
    | true =>
      simp only [insertByLt, hlt, if_true, List.mem_cons, ih]
      tauto
    | false =>
      simp only [insertByLt, hlt, Bool.false_eq_true, if_false, List.mem_cons]

theorem mem_sortByLt {α : Type} (lt : α → α → Bool) (x : α) (l : List α) :
    x ∈ sortByLt lt l ↔ x ∈ l := by
  induction l with
  | nil => simp [sortByLt]
  | cons a as ih => simp [sortByLt, mem_insertByLt, ih]

theorem pairwise_insertByLt_version (a : Migration) (l : List Migration)
    (h : l.Pairwise (fun x y => x.version ≤ y.version)) :
    (insertByLt (fun x y => decide (x.version < y.version)) a l).Pairwise
      (fun x y => x.version ≤ y.version) := by
  induction l with
  | nil => simp [insertByLt]
  | cons b bs ih =>
    rcases List.pairwise_cons.mp h with ⟨hb, hbs⟩
    by_cases hba : decide (b.version < a.version) = true
    · have hba' : b.version < a.version := of_decide_eq_true hba
      simp only [insertByLt, hba, if_true]
      refine List.pairwise_cons.mpr ⟨?_, ih hbs⟩
      intro y hy
      rcases (mem_insertByLt _ a y bs).mp hy with rfl | hy'
      · exact Nat.le_of_lt hba'
      · exact hb y hy'
    · have hba' : a.version ≤ b.version := by
        have := of_decide_eq_false (Bool.of_not_eq_true hba)
        omega
      simp only [insertByLt, hba, if_false]
      refine List.pairwise_cons.mpr ⟨?_, h⟩
      intro y hy
      rcases List.mem_cons.mp hy with rfl | hy'
      · exact hba'
      · exact Nat.le_trans hba' (hb y hy')

theorem pairwise_sortByLt_version (l : List Migration) :
    (sortByLt (fun x y => decide (x.version < y.version)) l).Pairwise
      (fun x y => x.version ≤ y.version) := by
  induction l with
  | nil => simp [sortByLt]
  | cons a as ih => exact pairwise_insertByLt_version a _ ih

theorem discover_migrations_sorted (files : List MigFile) :
    (discover_migrations files).Pairwise (fun x y => x.version ≤ y.version) := by
  unfold discover_migrations
  exact pairwise_sortByLt_version _

theorem mem_pending_migrations (env : Env) (current : Nat) (tv : Option Int) (m : Migration) :
    m ∈ pending_migrations env current tv ↔
      m ∈ discover_migrations env.migrationsFs ∧ current < m.version ∧
        ∀ t, tv = some t → t ≠ 0 → (m.version : Int) ≤ t := by
  unfold pending_migrations
  cases tv with
  | none => simp [List.mem_filter]
  | some t =>
    by_cases ht : t = 0
    · subst ht
      simp [List.mem_filter]
    · simp only [ht, if_true, if_false, ne_eq, not_false_iff, ite_true, List.mem_filter,
        decide_eq_true_eq, Option.some.injEq]
      constructor
      · rintro ⟨⟨hm, h1⟩, h2⟩
        exact ⟨hm, h1, fun t2 ht2 _ => ht2 ▸ h2⟩
      · rintro ⟨hm, h1, h2⟩
        exact ⟨⟨hm, h1⟩, h2 t rfl ht⟩

theorem pending_migrations_sorted (env : Env) (current : Nat) (tv : Option Int) :
    (pending_migrations env current tv).Pairwise (fun x y => x.version ≤ y.version) := by
  have hd := discover_migrations_sorted env.migrationsFs
  cases tv with
  | none =>
    simp only [pending_migrations]
    exact List.Pairwise.sublist (List.filter_sublist _) hd
  | some t =>
    simp only [pending_migrations]
    by_cases ht : t = 0
    · subst ht
      rw [if_neg (by simp)]
      exact List.Pairwise.sublist (List.filter_sublist _) hd
    · rw [if_pos ht]
      exact List.Pairwise.sublist (List.filter_sublist _)
        (List.Pairwise.sublist (List.filter_sublist _) hd)

theorem mem_rollback_selection (env : Env) (current : Nat) (t : Int) (m : Migration) :
    m ∈ rollback_selection env current t ↔
      m ∈ discover_migrations env.migrationsFs ∧ t < (m.version : Int) ∧ m.version ≤ current := by
  unfold rollback_selection
  simp [List.mem_filter, and_assoc]

theorem rollback_selection_descending (env : Env) (current : Nat) (t : Int) :
    (rollback_selection env current t).Pairwise (fun x y => y.version ≤ x.version) := by
  unfold rollback_selection
  rw [List.pairwise_reverse]
  exact List.Pairwise.sublist (List.filter_sublist _) (discover_migrations_sorted _)

theorem le_currentFromRows (rows : List Row) (r : Row) (h : r ∈ rows)
    (hd : r.direction = Direction.up) : r.version ≤ currentFromRows rows := by
  induction rows with
  | nil => cases h
  | cons x xs ih =>
    rcases List.mem_cons.mp h with rfl | h'
    · simp only [currentFromRows, if_pos hd]
      exact Nat.le_max_left _ _
    · by_cases hx : x.direction = Direction.up
      · simp only [currentFromRows, if_pos hx]
        exact Nat.le_trans (ih h') (Nat.le_max_right _ _)
      · simp only [currentFromRows, if_neg hx]
        exact ih h'

theorem currentFromRows_eq_zero_or_mem (rows : List Row) :
    currentFromRows rows = 0 ∨
      ∃ r, r ∈ rows ∧ r.direction = Direction.up ∧ r.version = currentFromRows rows := by
  induction rows with
  | nil => exact Or.inl rfl
  | cons x xs ih =>
    by_cases hx : x.direction = Direction.up
    · simp only [currentFromRows, if_pos hx]
      rcases Nat.lt_or_ge x.version (currentFromRows xs) with hlt | hge
      · have hmax : x.version.max (currentFromRows xs) = currentFromRows xs :=
          Nat.max_eq_right (Nat.le_of_lt hlt)
        rw [hmax]
        rcases ih with h0 | ⟨r, hr, hru, hrv⟩
        · omega
        · exact Or.inr ⟨r, List.mem_cons_of_mem _ hr, hru, hrv⟩
      · have hmax : x.version.max (currentFromRows xs) = x.version :=
          Nat.max_eq_left hge
        rw [hmax]
        exact Or.inr ⟨x, List.mem_cons_self _ _, hx, rfl⟩
    · simp only [currentFromRows, if_neg hx]
      rcases ih with h0 | ⟨r, hr, hru, hrv⟩
      · exact Or.inl h0
      · exact Or.inr ⟨r, List.mem_cons_of_mem _ hr, hru, hrv⟩

theorem currentFromRows_mono (rows rows' : List Row)
    (h : ∀ r, r ∈ rows → r ∈ rows') :
    currentFromRows rows ≤ currentFromRows rows' := by
  rcases currentFromRows_eq_zero_or_mem rows with h0 | ⟨r, hr, hru, hrv⟩
  · rw [h0]
    exact Nat.zero_le _
  · rw [← hrv]
    exact le_currentFromRows _ r (h r hr) hru

theorem apply_migration_ok (env : Env) (c : Conn) (m : Migration) (dir : Direction)
    (c1 : Conn) (t : Nat) (hc : c.pending = c.committed)
    (h : apply_migration env c m dir = (c1, Except.ok t)) :
    c1.committed.rows = mkRow env m dir :: c.committed.rows ∧
    c1.committed.sqlLog = migSql m dir :: c.committed.sqlLog ∧
    c1.committed.hasTable = c.committed.hasTable ∧
    c1.pending = c1.committed := by
  simp only [apply_migration] at h
  split at h
  · simp at h
  · split at h
    · split at h
      · simp at h
      · injection h with hA hB
        subst hA
        simp [commitConn, hc]
    · simp at h

theorem apply_migration_error (env : Env) (c : Conn) (m : Migration) (dir : Direction)
    (c1 : Conn) (e : MigError) (hc : c.pending = c.committed)
    (h : apply_migration env c m dir = (c1, Except.error e)) :
    c1.committed = c.committed ∧ c1.pending = c1.committed := by
  simp only [apply_migration] at h
  split at h
  · injection h with hA hB
    subst hA
    exact ⟨rfl, hc⟩
  · split at h
    · split at h
      · injection h with hA hB
        subst hA
        exact ⟨rfl, rfl⟩
      · simp at h
    · injection h with hA hB
      subst hA
      exact ⟨rfl, rfl⟩

theorem runPendingUp_failed_append (env : Env) (n : String) (c : Conn)
    (ms ms' : List Migration) (c1 : Conn) (v : Nat) (e : MigError)
    (h : runPendingUp env n c ms = (c1, MigReport.failed v e)) :
    runPendingUp env n c (ms ++ ms') = (c1, MigReport.failed v e) := by
  induction ms generalizing c with
  | nil => simp [runPendingUp] at h
  | cons m rest ih =>
    rw [List.cons_append]
    simp only [runPendingUp] at h ⊢
    cases hsk : scope_skip env n m with
    | true =>
      simp only [hsk, if_true] at h ⊢
      exact ih c h
    | false =>
      simp only [hsk, Bool.false_eq_true, if_false] at h ⊢
      cases hdry : env.dryRun with
      | true =>
        simp only [hdry, if_true] at h ⊢
        exact ih c h
      | false =>
        simp only [hdry, Bool.false_eq_true, if_false] at h ⊢
        rcases happ : apply_migration env c m Direction.up with ⟨ca, res⟩
        rw [happ] at h
        cases res with
        | ok t => exact ih ca h
        | error e2 => exact h

theorem runPendingUp_preserves (env : Env) (n : String) (c : Conn)
    (ms : List Migration) (c1 : Conn) (r : MigReport)
    (hc : c.pending = c.committed)
    (h : runPendingUp env n c ms = (c1, r)) :
    c1.pending = c1.committed ∧
    (∀ x, x ∈ c.committed.rows → x ∈ c1.committed.rows) ∧
    c1.committed.hasTable = c.committed.hasTable := by
  induction ms generalizing c with
  | nil =>
    simp only [runPendingUp] at h
    injection h with hA hB
    subst hA
    exact ⟨hc, fun x hx => hx, rfl⟩
  | cons m rest ih =>
    simp only [runPendingUp] at h
    cases hsk : scope_skip env n m with
    | true =>
      simp only [hsk, if_true] at h
      exact ih c hc h
    | false =>
      simp only [hsk, Bool.false_eq_true, if_false] at h
      cases hdry : env.dryRun with
      | true =>
        simp only [hdry, if_true] at h
        exact ih c hc h
      | false =>
        simp only [hdry, Bool.false_eq_true, if_false] at h
        rcases happ : apply_migration env c m Direction.up with ⟨ca, res⟩
        rw [happ] at h
        cases res with
        | ok t =>
          obtain ⟨h1, h2, h3, h4⟩ := apply_migration_ok env c m Direction.up ca t hc happ
          obtain ⟨g1, g2, g3⟩ := ih ca h4 h
          refine ⟨g1, ?_, g3.trans h3⟩
          intro x hx
          exact g2 x (h1 ▸ List.mem_cons_of_mem _ hx)
        | error e2 =>
          have hcast : (ca, MigReport.failed m.version e2) = (c1, r) := h
          injection hcast with hA hB
          subst hA
          obtain ⟨h1, h2⟩ := apply_migration_error env c m Direction.up ca e2 hc happ
          exact ⟨h2, fun x hx => h1 ▸ hx, congrArg DbState.hasTable h1⟩

theorem runPendingUp_done_rows (env : Env) (n : String) (c : Conn)
    (ms : List Migration) (c1 : Conn)
    (hc : c.pending = c.committed) (hdry : env.dryRun = false)
    (hskip : ∀ m, m ∈ ms → scope_skip env n m = false)
    (h : runPendingUp env n c ms = (c1, MigReport.done)) :
    ∀ m, m ∈ ms → ∃ x, x ∈ c1.committed.rows ∧ x.direction = Direction.up ∧
      x.version = m.version := by
  induction ms generalizing c with
  | nil => intro m hm; cases hm
  | cons m0 rest ih =>
    simp only [runPendingUp] at h
    rw [hskip m0 (List.mem_cons_self _ _), hdry] at h
    simp only [Bool.false_eq_true, if_false] at h
    rcases happ : apply_migration env c m0 Direction.up with ⟨ca, res⟩
    rw [happ] at h
    cases res with
    | ok t =>
      obtain ⟨h1, h2, h3, h4⟩ := apply_migration_ok env c m0 Direction.up ca t hc happ
      intro m hm
      rcases List.mem_cons.mp hm with rfl | hm'
      · obtain ⟨g1, g2, g3⟩ := runPendingUp_preserves env n ca rest c1 MigReport.done h4 h
        exact ⟨mkRow env m Direction.up,
          g2 _ (h1 ▸ List.mem_cons_self _ _), rfl, rfl⟩
      · exact ih ca h4 (fun x hx => hskip x (List.mem_cons_of_mem _ hx)) h m hm'
    | error e2 =>
      have hcast : (ca, MigReport.failed m0.version e2) = (c1, MigReport.done) := h
      injection hcast with hA hB
      cases hB

theorem runPendingUp_ne_upToDate (env : Env) (n : String) (c : Conn)
    (ms : List Migration) (v : Nat) :
    (runPendingUp env n c ms).2 ≠ MigReport.upToDate v := by
  induction ms generalizing c with
  | nil => simp [runPendingUp]
  | cons m rest ih =>
    simp only [runPendingUp]
    cases hsk : scope_skip env n m with
    | true => simpa [hsk] using ih c
    | false =>
      simp only [hsk, Bool.false_eq_true, if_false]
      cases hdry : env.dryRun with
      | true => simpa [hdry] using ih c
      | false =>
        simp only [hdry, Bool.false_eq_true, if_false]
        rcases happ : apply_migration env c m Direction.up with ⟨ca, res⟩
        cases res with
        | ok t => exact ih ca
        | error e2 => simp

theorem foldl_updateWorld_not_mem (f : String → DbState → DbState) (ns : List String)
    (w : World) (d : String) (h : countName d ns = 0) :
    (ns.foldl (fun w n => updateWorld w n (f n (w n))) w) d = w d := by
  induction ns generalizing w with
  | nil => rfl
  | cons n rest ih =>
    simp only [countName] at h
    by_cases hn : n = d
    · simp [hn] at h
    · simp only [hn, if_false, Nat.zero_add] at h
      rw [List.foldl_cons, ih _ h]
      simp [updateWorld, Ne.symm hn]

theorem foldl_updateWorld_once (f : String → DbState → DbState) (ns : List String)
    (w : World) (d : String) (h : countName d ns = 1) :
    (ns.foldl (fun w n => updateWorld w n (f n (w n))) w) d = f d (w d) := by
  induction ns generalizing w with
  | nil => simp [countName] at h
  | cons n rest ih =>
    simp only [countName] at h
    by_cases hn : n = d
    · rw [if_pos hn] at h
      have hrest : countName d rest = 0 := by omega
      rw [List.foldl_cons, foldl_updateWorld_not_mem f rest _ d hrest, hn]
      simp [updateWorld]
    · simp only [hn, if_false, Nat.zero_add] at h
      rw [List.foldl_cons, ih _ h]
      have : (updateWorld w n (f n (w n))) d = w d := by
        simp [updateWorld, Ne.symm hn]
      rw [this]

theorem migrate_all_frame (env : Env) (tv : Option Int) (w : World) (d : String)
    (hhost : d ≠ env.hostDb)
    (hcount : countName d (env.tenantDbs.map Prod.snd) = 1) :
    migrate_all env tv w d = (migrate_database env (w d) d tv).1 := by
  have hmain := foldl_updateWorld_once (fun n db => (migrate_database env db n tv).1)
    (env.tenantDbs.map Prod.snd) (migrate_step env tv w env.hostDb) d hcount
  have hinit : (migrate_step env tv w env.hostDb) d = w d := by
    simp [migrate_step, updateWorld, hhost]
  refine Eq.trans hmain ?_
  show (migrate_database env ((migrate_step env tv w env.hostDb) d) d tv).1 =
    (migrate_database env (w d) d tv).1
  rw [hinit]

theorem rollback_all_frame (env : Env) (steps : Int) (tv : Option Int) (w : World) (d : String)
    (hhost : d ≠ env.hostDb)
    (hcount : countName d (env.tenantDbs.map Prod.snd) = 1) :
    rollback_all env steps tv w d = (rollback_database env (w d) d steps tv).1 := by
  have hmain := foldl_updateWorld_once (fun n db => (rollback_database env db n steps tv).1)
    (env.tenantDbs.map Prod.snd) (rollback_step env steps tv w env.hostDb) d hcount
  have hinit : (rollback_step env steps tv w env.hostDb) d = w d := by
    simp [rollback_step, updateWorld, hhost]
  refine Eq.trans hmain ?_
  show (rollback_database env ((rollback_step env steps tv w env.hostDb) d) d steps tv).1 =
    (rollback_database env (w d) d steps tv).1
  rw [hinit]

theorem migrate_database_upToDate (env : Env) (db : DbState) (n : String) (tv : Option Int)
    (hconn : env.connectOk n = true) (hens : env.ensureOk = true) (hsel : env.selectOk = true)
    (ht : db.hasTable = true)
    (hp : pending_migrations env (currentFromRows db.rows) tv = []) :
    migrate_database env db n tv = (db, MigReport.upToDate (currentFromRows db.rows)) := by
  obtain ⟨tbl, rows, log⟩ := db
  simp only at ht
  subst ht
  simp only at hp
  simp [migrate_database, hconn, ensure_migration_table, hens, commitConn,
    get_current_version, hsel, hp]

/-- C8 (amended): if a `migrate_database` call succeeds (reporting done or
up-to-date) and skipped none of its pending migrations, then a second call
with the same environment reports up to date and performs zero writes — the
database state is returned unchanged.  (The version query must succeed,
else the swallowed error would make the runner retry everything.) -/
theorem migrate_database_idempotent (env : Env) (db : DbState) (n : String) (tv : Option Int)
    (db1 : DbState) (r1 : MigReport)
    (hdry : env.dryRun = false) (hsel : env.selectOk = true)
    (h1 : migrate_database env db n tv = (db1, r1))
    (hr : r1 = MigReport.done ∨ ∃ v, r1 = MigReport.upToDate v)
    (hskip : ∀ m, m ∈ pending_migrations env (currentFromRows db.rows) tv →
      scope_skip env n m = false) :
    migrate_database env db1 n tv = (db1, MigReport.upToDate (currentFromRows db1.rows)) := by
  cases hconn : env.connectOk n with
  | false =>
    simp only [migrate_database, hconn, Bool.false_eq_true, if_false] at h1
    injection h1 with hA hB
    subst hB
    rcases hr with h | ⟨v, h⟩ <;> cases h
  | true =>
    cases hens : env.ensureOk with
    | false =>
      simp only [migrate_database, hconn, if_true, ensure_migration_table, hens,
        Bool.false_eq_true, if_false] at h1
      injection h1 with hA hB
      subst hB
      rcases hr with h | ⟨v, h⟩ <;> cases h
    | true =>
      simp only [migrate_database, hconn, if_true, ensure_migration_table, hens,
        commitConn, get_current_version, hsel] at h1
      cases hp1 : pending_migrations env (currentFromRows db.rows) tv with
      | nil =>
        rw [hp1] at h1
        simp only [List.isEmpty_nil, if_true] at h1
        injection h1 with hA hB
        subst hA
        have := migrate_database_upToDate env
          (DbState.mk true db.rows db.sqlLog) n tv hconn hens hsel rfl (by simpa using hp1)
        simpa using this
      | cons hd tl =>
        rw [hp1] at h1
        simp only [List.isEmpty_cons, if_false, Bool.false_eq_true] at h1
        rcases hrun : runPendingUp env n
            (Conn.mk (DbState.mk true db.rows db.sqlLog) (DbState.mk true db.rows db.sqlLog))
            (hd :: tl) with ⟨cEnd, rEnd⟩
        rw [hrun] at h1
        injection h1 with hA hB
        subst hA
        subst hB
        have hdone : rEnd = MigReport.done := by
          rcases hr with h | ⟨v, h⟩
          · exact h
          · exfalso
            have := runPendingUp_ne_upToDate env n
              (Conn.mk (DbState.mk true db.rows db.sqlLog) (DbState.mk true db.rows db.sqlLog))
              (hd :: tl) v
            rw [hrun] at this
            exact this h
        subst hdone
        obtain ⟨g1, g2, g3⟩ := runPendingUp_preserves env n _ _ _ _ rfl hrun
        have hrows : ∀ x, x ∈ db.rows → x ∈ cEnd.committed.rows := by
          intro x hx
          exact g2 x hx
        have happlied := runPendingUp_done_rows env n _ _ _ rfl hdry
          (by rw [hp1] at hskip; exact hskip) hrun
        have hcur : currentFromRows db.rows ≤ currentFromRows cEnd.committed.rows :=
          currentFromRows_mono _ _ hrows
        have hp2 : pending_migrations env (currentFromRows cEnd.committed.rows) tv = [] := by
          rw [List.eq_nil_iff_forall_not_mem]
          intro m hm
          rw [mem_pending_migrations] at hm
          obtain ⟨hmd, hmv, hmc⟩ := hm
          have hm1 : m ∈ pending_migrations env (currentFromRows db.rows) tv := by
            rw [mem_pending_migrations]
            exact ⟨hmd, Nat.lt_of_le_of_lt hcur hmv, hmc⟩
          rw [hp1] at hm1
          obtain ⟨x, hx, hxu, hxv⟩ := happlied m hm1
          have : x.version ≤ currentFromRows cEnd.committed.rows :=
            le_currentFromRows _ x hx hxu
          omega
        have := migrate_database_upToDate env cEnd.committed n tv hconn hens hsel
          (g3.trans rfl) hp2
        exact this

/-! ## Claims -/

/-- C1: `apply_migration` executes the migration SQL body and the insertion of
the tracking row as a single transaction on one connection: on success both
are committed together (the body at the head of the SQL log, the row at the
head of the tracking table), and on any failure the committed state is
unchanged and the connection is left with its pending state equal to the
committed state — never the SQL applied without the row, or the row without
the SQL. -/
theorem apply_migration_transactional (env : Env) (c : Conn) (m : Migration)
    (dir : Direction) (hc : c.pending = c.committed) :
    (∀ c1 t, apply_migration env c m dir = (c1, Except.ok t) →
      c1.committed.rows = mkRow env m dir :: c.committed.rows ∧
      c1.committed.sqlLog = migSql m dir :: c.committed.sqlLog ∧
      c1.pending = c1.committed) ∧
    (∀ c1 e, apply_migration env c m dir = (c1, Except.error e) →
      c1.committed = c.committed ∧ c1.pending = c1.committed) := by
  constructor
  · intro c1 t h
    obtain ⟨h1, h2, h3, h4⟩ := apply_migration_ok env c m dir c1 t hc h
    exact ⟨h1, h2, h4⟩
  · intro c1 e h
    exact apply_migration_error env c m dir c1 e hc h

theorem apply_migration_transactional_witness :
    (apply_migration envUnit connFresh mUnit Direction.up).1.committed.rows =
      mkRow envUnit mUnit Direction.up :: connFresh.committed.rows ∧
    (apply_migration envUnit connFresh mUnit Direction.down).1.committed =
      connFresh.committed := by
  constructor
  · exact ((apply_migration_transactional envUnit connFresh mUnit Direction.up rfl).1
      (apply_migration envUnit connFresh mUnit Direction.up).1 0 rfl).1
  · exact ((apply_migration_transactional envUnit connFresh mUnit Direction.down rfl).2
      (apply_migration envUnit connFresh mUnit Direction.down).1
      (MigError.noSection Direction.down 1) rfl).1

/-- C2: a failure while applying a migration ends that database's sequence
(the remaining pending migrations are never attempted: appending them changes
nothing), while `migrate_all` still processes every other database — the
final state of a tenant database enumerated once and distinct from the host
is exactly what a standalone `migrate_database` call on it produces,
regardless of failures elsewhere. -/
theorem migrate_failure_containment :
    (∀ env n c ms ms' c1 v e, runPendingUp env n c ms = (c1, MigReport.failed v e) →
        runPendingUp env n c (ms ++ ms') = (c1, MigReport.failed v e)) ∧
    (∀ env tv w d, d ≠ env.hostDb → countName d (env.tenantDbs.map Prod.snd) = 1 →
        migrate_all env tv w d = (migrate_database env (w d) d tv).1) :=
  ⟨fun env n c ms ms' c1 v e h => runPendingUp_failed_append env n c ms ms' c1 v e h,
   fun env tv w d h1 h2 => migrate_all_frame env tv w d h1 h2⟩

theorem migrate_failure_containment_witness :
    runPendingUp envFail "tdb" connFresh [mUnit, mUnit2] =
      (rollbackConn connFresh, MigReport.failed 1 (MigError.sqlFailed "X")) ∧
    migrate_all envFail none (fun _ => dbFresh) "tdb" =
      (migrate_database envFail dbFresh "tdb" none).1 := by
  constructor
  · exact migrate_failure_containment.1 envFail "tdb" connFresh [mUnit] [mUnit2]
      (rollbackConn connFresh) 1 (MigError.sqlFailed "X") (by decide)
  · exact migrate_failure_containment.2 envFail none (fun _ => dbFresh) "tdb"
      (by decide) (by decide)

/-- C3 counterexample: a file that contains a DOWN marker but no UP marker.
The UP pattern does not match, so `up_sql` is the whole stripped content, but
the DOWN pattern is searched independently and does match, so `down_sql` is
the text after the DOWN marker — not the empty string the claim requires. -/
theorem parse_sql_down_marker_without_up :
    up_match "-- === DOWN ===\nDROP TABLE t;" = none ∧
    (parse_sql "-- === DOWN ===\nDROP TABLE t;").1 = "-- === DOWN ===\nDROP TABLE t;" ∧
    (parse_sql "-- === DOWN ===\nDROP TABLE t;").2 = "DROP TABLE t;" ∧
    ("DROP TABLE t;" : String) ≠ "" := by
  refine ⟨by decide, by decide, by decide, by decide⟩

/-- C3 (amended): when a file contains no UP marker, `up_sql` is the entire
trimmed content; `down_sql` is the empty string provided the file also
contains no DOWN marker (a DOWN marker is honoured independently of UP). -/
theorem parse_sql_no_up_marker (content : String) (h : up_match content = none) :
    (parse_sql content).1 = strip content ∧
    (down_match content = none → (parse_sql content).2 = "") := by
  constructor
  · simp [parse_sql, h, strip]
  · intro hd
    simp [parse_sql, h, hd]

theorem parse_sql_no_up_marker_witness :
    up_match "SELECT 1;" = none ∧ (parse_sql "SELECT 1;").1 = strip "SELECT 1;" ∧
      (parse_sql "SELECT 1;").2 = "" := by
  refine ⟨by decide, ?_, ?_⟩
  · exact (parse_sql_no_up_marker "SELECT 1;" (by decide)).1
  · exact (parse_sql_no_up_marker "SELECT 1;" (by decide)).2 (by decide)

/-- C4 counterexample: `targetVersion = 0` supplied.  The Python guard
`if target_version:` is falsy at 0, so the cap is not applied: with current
version 0, the version-1 migration stays pending (violating the claimed
`version <= 0` restriction) and a run applies it instead of reporting
up to date with zero writes. -/
theorem pending_migrations_zero_target :
    pending_migrations envZeroTarget 0 (some 0) = [⟨1, "a", "both", "X", ""⟩] ∧
    ¬ ((1 : Int) ≤ 0) ∧
    migrate_database envZeroTarget ⟨false, [], []⟩ "h" (some 0) =
      (⟨true, [⟨1, "a", "both", Direction.up, "u", 0, "h"⟩], ["X"]⟩, MigReport.done) := by
  refine ⟨by decide, by decide, by decide⟩

/-- C4 (amended): the pending set is exactly the discovered migrations with
version above the current version, capped to `version <= targetVersion` only
when a target is supplied and nonzero (a supplied 0 is treated like no
target); the pending list is in ascending version order, the order in which
the loop applies it. -/
theorem pending_migrations_spec (env : Env) (current : Nat) (tv : Option Int) :
    (∀ m, m ∈ pending_migrations env current tv ↔
      m ∈ discover_migrations env.migrationsFs ∧ current < m.version ∧
        ∀ t, tv = some t → t ≠ 0 → (m.version : Int) ≤ t) ∧
    (pending_migrations env current tv).Pairwise (fun x y => x.version ≤ y.version) :=
  ⟨fun m => mem_pending_migrations env current tv m, pending_migrations_sorted env current tv⟩

theorem pending_migrations_spec_witness :
    (⟨1, "a", "both", "X", ""⟩ : Migration) ∈ pending_migrations envZeroTarget 0 none := by
  exact ((pending_migrations_spec envZeroTarget 0 none).1 _).mpr
    ⟨by decide, by decide, by simp⟩

/-- C5: during forward migration a pending migration is skipped (the sequence
continuing) exactly when `scope_skip` holds — scope `host` against a database
whose name contains `tenant`, or scope `tenant` against the host database;
a `both`-scoped migration is never skipped; when not skipped (and not in
dry-run mode) it is applied.  In the spec's concrete scenario, migrating the
host database applies only version 1 and migrating a tenant database applies
only version 2. -/
theorem migrate_scope_filter :
    (∀ env n c m ms, scope_skip env n m = true →
        runPendingUp env n c (m :: ms) = runPendingUp env n c ms) ∧
    (∀ env n m, m.scope = "both" → scope_skip env n m = false) ∧
    (∀ env n c m ms, scope_skip env n m = false → env.dryRun = false →
        runPendingUp env n c (m :: ms) =
          match apply_migration env c m Direction.up with
          | (c1, Except.ok _) => runPendingUp env n c1 ms
          | (c1, Except.error e) => (c1, MigReport.failed m.version e)) ∧
    migrate_database envDemo ⟨false, [], []⟩ "saas" none =
      (⟨true, [⟨1, "init", "host", Direction.up, "u", 0, "h"⟩],
        ["CREATE TABLE t1 (id INTEGER);"]⟩, MigReport.done) ∧
    migrate_database envDemo ⟨false, [], []⟩ "tenant_x" none =
      (⟨true, [⟨2, "add_col", "tenant", Direction.up, "u", 0, "h"⟩],
        ["ALTER TABLE t1 ADD c TEXT;"]⟩, MigReport.done) := by
  refine ⟨?_, ?_, ?_, by decide, by decide⟩
  · intro env n c m ms h
    simp [runPendingUp, h]
  · intro env n m h
    simp [scope_skip, h]
  · intro env n c m ms h hdry
    simp [runPendingUp, h, hdry]

theorem migrate_scope_filter_witness :
    runPendingUp envDemo "saas" connFresh [⟨2, "add_col", "tenant", "A", "B"⟩] =
      runPendingUp envDemo "saas" connFresh [] ∧
    scope_skip envDemo "saas" ⟨3, "z", "both", "A", "B"⟩ = false := by
  constructor
  · exact migrate_scope_filter.1 envDemo "saas" connFresh
      ⟨2, "add_col", "tenant", "A", "B"⟩ [] (by decide)
  · exact migrate_scope_filter.2.1 envDemo "saas" ⟨3, "z", "both", "A", "B"⟩ rfl

/-- C6 counterexample: a version-0 migration file, an empty tracking table
(current version 0) and a supplied negative target.  The claimed selection
`targetVersion < version <= current` contains the version-0 migration (whose
DOWN body is nonempty), but `rollback_database` returns at the
`current == 0` guard and processes nothing. -/
theorem rollback_selection_not_reached :
    rollback_database envVersionZero ⟨false, [], []⟩ "d" 1 (some (-1)) =
      (⟨true, [], []⟩, RollReport.nothingToRollback) ∧
    rollback_selection envVersionZero 0 (-1) = [⟨0, "zero", "both", "A", "B"⟩] ∧
    (⟨0, "zero", "both", "A", "B"⟩ : Migration).down_sql ≠ "" := by
  refine ⟨by decide, by decide, by decide⟩

/-- C6 (amended): the rollback target defaults to `max(0, current - steps)`;
the selection is exactly the discovered migrations with
`target < version <= current`, processed in descending version order — except
that when the current version is 0 the runner returns before selecting and
rolls nothing back. -/
theorem rollback_database_selection_spec :
    (∀ current steps, rollback_target current steps none = max 0 ((current : Int) - steps)) ∧
    (∀ env current t m, m ∈ rollback_selection env current t ↔
        m ∈ discover_migrations env.migrationsFs ∧ t < (m.version : Int) ∧
          m.version ≤ current) ∧
    (∀ env current t, (rollback_selection env current t).Pairwise
        (fun x y => y.version ≤ x.version)) ∧
    (∀ env db n steps tv, env.connectOk n = true → env.ensureOk = true →
        env.selectOk = true → currentFromRows db.rows = 0 →
        rollback_database env db n steps tv =
          ({ db with hasTable := true }, RollReport.nothingToRollback)) := by
  refine ⟨fun current steps => rfl,
    fun env current t m => mem_rollback_selection env current t m,
    fun env current t => rollback_selection_descending env current t, ?_⟩
  intro env db n steps tv hconn hens hsel h0
  obtain ⟨tbl, rows, log⟩ := db
  simp only at h0
  simp [rollback_database, hconn, ensure_migration_table, hens, commitConn,
    get_current_version, hsel, h0]

theorem rollback_database_selection_spec_witness :
    rollback_target 5 2 none = 3 ∧
    (⟨0, "zero", "both", "A", "B"⟩ : Migration) ∈ rollback_selection envVersionZero 2 (-1) ∧
    rollback_database envVersionZero ⟨false, [], []⟩ "d" 3 none =
      (⟨true, [], []⟩, RollReport.nothingToRollback) := by
  refine ⟨?_, ?_, ?_⟩
  · rw [rollback_database_selection_spec.1 5 2]
    decide
  · exact (rollback_database_selection_spec.2.1 envVersionZero 2 (-1)
      ⟨0, "zero", "both", "A", "B"⟩).mpr ⟨by decide, by decide, by decide⟩
  · exact rollback_database_selection_spec.2.2.2 envVersionZero ⟨false, [], []⟩ "d" 3 none
      rfl rfl rfl (by decide)

/-- C7: rolling back a migration whose DOWN body is empty raises the
missing-direction-section error before any SQL execution or row insertion:
the connection — hence the tracking table and the current version — is
returned exactly unchanged, the remaining rollback sequence of that database
is abandoned, and `rollback_all` still processes every other database
independently. -/
theorem rollback_missing_down_section :
    (∀ env c m ms, m.down_sql = "" → env.dryRun = false →
        runPendingDown env c (m :: ms) =
          (c, RollReport.failed m.version (MigError.noSection Direction.down m.version)) ∧
        apply_migration env c m Direction.down =
          (c, Except.error (MigError.noSection Direction.down m.version))) ∧
    (∀ env steps tv w d, d ≠ env.hostDb →
        countName d (env.tenantDbs.map Prod.snd) = 1 →
        rollback_all env steps tv w d = (rollback_database env (w d) d steps tv).1) := by
  constructor
  · intro env c m ms hd hdry
    have happ : apply_migration env c m Direction.down =
        (c, Except.error (MigError.noSection Direction.down m.version)) := by
      simp [apply_migration, migSql, hd]
    exact ⟨by simp [runPendingDown, hdry, happ], happ⟩
  · intro env steps tv w d h1 h2
    exact rollback_all_frame env steps tv w d h1 h2

theorem rollback_missing_down_section_witness :
    runPendingDown envUnit connFresh [mNoDown] =
      (connFresh, RollReport.failed 3 (MigError.noSection Direction.down 3)) ∧
    rollback_all envFail 1 none (fun _ => dbFresh) "tdb" =
      (rollback_database envFail dbFresh "tdb" 1 none).1 := by
  constructor
  · exact (rollback_missing_down_section.1 envUnit connFresh mNoDown [] rfl rfl).1
  · exact rollback_missing_down_section.2 envFail 1 none (fun _ => dbFresh) "tdb"
      (by decide) (by decide)

/-- C8 counterexample: in the spec's own scenario (a tenant-scoped migration
present), the first host run applies version 1 and skips version 2; the
second run is not reported up to date — version 2 is still pending and is
skipped again — although it indeed makes zero writes. -/
theorem migrate_twice_not_up_to_date :
    isUpToDate (migrate_database envDemo
      (migrate_database envDemo ⟨false, [], []⟩ "saas" none).1 "saas" none).2 = false ∧
    (migrate_database envDemo
      (migrate_database envDemo ⟨false, [], []⟩ "saas" none).1 "saas" none).1 =
      (migrate_database envDemo ⟨false, [], []⟩ "saas" none).1 := by
  refine ⟨by decide, by decide⟩

theorem migrate_database_idempotent_witness :
    migrate_database envZeroTarget
      (migrate_database envZeroTarget ⟨false, [], []⟩ "h" none).1 "h" none =
      ((migrate_database envZeroTarget ⟨false, [], []⟩ "h" none).1,
        MigReport.upToDate 1) := by
  have h := migrate_database_idempotent envZeroTarget ⟨false, [], []⟩ "h" none
    (migrate_database envZeroTarget ⟨false, [], []⟩ "h" none).1
    (migrate_database envZeroTarget ⟨false, [], []⟩ "h" none).2
    rfl rfl rfl (Or.inl (by decide)) (by decide)
  exact h.trans (by decide)

/-- C9: `get_current_version` returns the highest version having a recorded
up row (every up row is bounded by it and, when nonzero, it is attained by
some up row); it returns 0 on an empty tracking table; and it returns 0 when
the version query or the table creation errors — the error is swallowed, not
propagated. -/
theorem get_current_version_spec (env : Env) (c : Conn) (hc : c.pending = c.committed) :
    (env.ensureOk = true → env.selectOk = true →
      (∀ r, r ∈ c.committed.rows → r.direction = Direction.up →
          r.version ≤ (get_current_version env c).2) ∧
      ((get_current_version env c).2 ≠ 0 →
        ∃ r, r ∈ c.committed.rows ∧ r.direction = Direction.up ∧
          r.version = (get_current_version env c).2)) ∧
    (c.committed.rows = [] → (get_current_version env c).2 = 0) ∧
    (env.selectOk = false → (get_current_version env c).2 = 0) ∧
    (env.ensureOk = false → (get_current_version env c).2 = 0) := by
  have hval : ∀ he : env.ensureOk = true, ∀ hs : env.selectOk = true,
      (get_current_version env c).2 = currentFromRows c.committed.rows := by
    intro he hs
    simp [get_current_version, ensure_migration_table, he, hs, commitConn, hc]
  refine ⟨fun he hs => ?_, fun hrows => ?_, fun hs => ?_, fun he => ?_⟩
  · rw [hval he hs]
    constructor
    · intro r hr hru
      exact le_currentFromRows _ r hr hru
    · intro hne
      rcases currentFromRows_eq_zero_or_mem c.committed.rows with h0 | ⟨r, hr, hru, hrv⟩
      · exact absurd h0 hne
      · exact ⟨r, hr, hru, hrv⟩
  · cases he : env.ensureOk with
    | false => simp [get_current_version, ensure_migration_table, he]
    | true =>
      cases hs : env.selectOk with
      | false => simp [get_current_version, ensure_migration_table, he, hs]
      | true =>
        rw [hval he hs, hrows]
        rfl
  · cases he : env.ensureOk with
    | false => simp [get_current_version, ensure_migration_table, he]
    | true => simp [get_current_version, ensure_migration_table, he, hs]
  · simp [get_current_version, ensure_migration_table, he]

theorem get_current_version_spec_witness :
    (get_current_version envUnit connRows).2 = 5 ∧
    5 ≤ (get_current_version envUnit connRows).2 := by
  constructor
  · decide
  · exact ((get_current_version_spec envUnit connRows rfl).1 rfl rfl).1
      ⟨5, "b", "both", Direction.up, "u", 0, "h"⟩ (by decide) rfl

/-- C10: rollback applies no scope filter: membership in the rollback
selection is determined by the version range alone (no scope condition), and
concretely a tenant-scoped migration whose version is in range has its DOWN
body executed against the host database and its down row recorded there. -/
theorem rollback_ignores_scope :
    (∀ env current t m, m ∈ rollback_selection env current t ↔
        m ∈ discover_migrations env.migrationsFs ∧ t < (m.version : Int) ∧
          m.version ≤ current) ∧
    rollback_database envRollTenant
        ⟨true, [⟨2, "add_col", "tenant", Direction.up, "u", 0, "h"⟩], []⟩ "saas" 1 none =
      (⟨true, [⟨2, "add_col", "tenant", Direction.down, "u", 0, "h"⟩,
          ⟨2, "add_col", "tenant", Direction.up, "u", 0, "h"⟩],
        ["ALTER TABLE t1 DROP c;"]⟩, RollReport.done) :=
  ⟨fun env current t m => mem_rollback_selection env current t m, by decide⟩

theorem rollback_ignores_scope_witness :
    (⟨2, "add_col", "tenant", "ALTER TABLE t1 ADD c TEXT;",
        "ALTER TABLE t1 DROP c;"⟩ : Migration) ∈
      rollback_selection envRollTenant 2 1 := by
  exact (rollback_ignores_scope.1 envRollTenant 2 1
    ⟨2, "add_col", "tenant", "ALTER TABLE t1 ADD c TEXT;", "ALTER TABLE t1 DROP c;"⟩).mpr
    ⟨by decide, by decide, by decide⟩

end FastMigrate
